import Mathlib

/-!
Shallow embedding of the time-synchronized keyframe interpolation and
scene-state synchronization engine of the Vision-Weaver repository.

Numbers (JS `number`) are modelled as rationals `ℚ`; JS array reads that can
yield `undefined` are modelled with `Option`; an operation that would read a
field of `undefined` (and hence throw a `TypeError` at runtime) is modelled
as returning `none`.
-/

namespace VisionWeaver

/-- Result record of `findSegment` (src/unnamed/part_010:15-22).  The JS
function returns `{ start: ..., end: ... }`; the field `end` is a Lean
keyword, so it is embedded as `stop`.  Both components are `Option` because
the JS code reads `data[data.length - 1]`, which is `undefined` on an empty
array. -/
structure Segment (T : Type) where
  start : Option T
  stop : Option T
deriving DecidableEq, Repr

/-- The loop of `findSegment` (src/unnamed/part_010:16-20): scan adjacent
pairs left to right, returning the first pair `(data[i], data[i+1])` with
`currentTime >= data[i].time && currentTime < data[i+1].time`.  The `time`
projection stands for the `.time` field of `T extends BaseKeyframe`. -/
def findSegLoop {T : Type} (time : T → ℚ) (currentTime : ℚ) : List T → Option (T × T)
  | a :: b :: rest =>
      if time a ≤ currentTime ∧ currentTime < time b then some (a, b)
      else findSegLoop time currentTime (b :: rest)
  | _ => none

/-- Embeds `findSegment` (src/unnamed/part_010:15-22): the pair-scanning loop,
falling through to `{ start: data[data.length - 1], end: data[data.length - 1] }`. -/
def findSegment {T : Type} (time : T → ℚ) (data : List T) (currentTime : ℚ) : Segment T :=
  match findSegLoop time currentTime data with
  | some (a, b) => ⟨some a, some b⟩
  | none => ⟨data.getLast?, data.getLast?⟩

/-- Embeds `interpolate` (src/unnamed/part_010:4-10), guards in source order. -/
def interpolate (val1 val2 time1 time2 currentTime : ℚ) : ℚ :=
  if currentTime ≤ time1 then val1
  else if time2 ≤ currentTime then val2
  else if time1 = time2 then val1
  else
    let t := (currentTime - time1) / (time2 - time1)
    val1 + (val2 - val1) * t

/-- A minimal concrete keyframe shape (a `BaseKeyframe` carrying one value),
used to instantiate the generic sampler at concrete inputs. -/
structure TKf where
  time : ℚ
  v : ℚ
deriving DecidableEq, Repr

/-- Embeds `TimelineDataPoint` (src/components/TimelineGraph.tsx:5-9). -/
structure TimelineDataPoint where
  time : ℚ
  intensity : ℚ
  label : String
deriving DecidableEq, Repr

/-- The intensity computation of `TimelineGraph` (src/components/TimelineGraph.tsx:33-34
and the identical per-sample computation at lines 80-81 and 111-112):
`findSegment` followed by `interpolate(start.intensity, end.intensity,
start.time, end.time, t)`.  Reading `.intensity`/`.time` of an `undefined`
segment component throws in JS; that failure is `none` here. -/
def currentIntensity (data : List TimelineDataPoint) (t : ℚ) : Option ℚ :=
  let seg := findSegment TimelineDataPoint.time data t
  match seg.start, seg.stop with
  | some s, some e => some (interpolate s.intensity e.intensity s.time e.time t)
  | _, _ => none

/-- The sample grid of both graph modes (src/components/TimelineGraph.tsx:78-79
and 109-110): `time = (i / steps) * duration` for `i = 0 .. steps`. -/
def sampleTimes (duration : ℚ) (steps : ℕ) : List ℚ :=
  (List.range (steps + 1)).map (fun (i : ℕ) => ((i : ℚ) / (steps : ℚ)) * duration)

/-- The sampled-intensity stream of the `emotion` (color-ramp) mode
(src/components/TimelineGraph.tsx:78-90). -/
def emotionIntensities (data : List TimelineDataPoint) (duration : ℚ) (steps : ℕ) :
    List (Option ℚ) :=
  (sampleTimes duration steps).map (currentIntensity data)

/-- The sampled-intensity stream of the `complexity` (noisy filled curve)
mode (src/components/TimelineGraph.tsx:109-120); the interpolated intensity
is computed by the same expression as the emotion mode before the noise
term is mixed in. -/
def complexityIntensities (data : List TimelineDataPoint) (duration : ℚ) (steps : ℕ) :
    List (Option ℚ) :=
  (sampleTimes duration steps).map (currentIntensity data)

/-- Embeds `BlockingKeyframe` (src/types.ts:13-16). -/
structure BlockingKeyframe where
  time : ℚ
  x : ℚ
  y : ℚ
deriving DecidableEq, Repr

/-- Embeds `EmotionKeyframe` (src/types.ts:18-21). -/
structure EmotionKeyframe where
  time : ℚ
  intensity : ℚ
  label : String
deriving DecidableEq, Repr

/-- Embeds `CameraKeyframe` (src/types.ts:23-28). -/
structure CameraKeyframe where
  time : ℚ
  complexity : ℚ
  label : String
  x : ℚ
  y : ℚ
deriving DecidableEq, Repr

/-- Embeds `Character` (src/types.ts:31-38). -/
structure Character where
  id : String
  name : String
  color : String
  pathColor : String
  blocking : List BlockingKeyframe
  emotion : List EmotionKeyframe
deriving DecidableEq, Repr

/-- Embeds `CharacterPosition` (src/types.ts:41-44): a `Character` plus its
interpolated position. -/
structure CharacterPosition extends Character where
  x : ℚ
  y : ℚ
deriving DecidableEq, Repr

/-- The per-character branch of `characterPositions` (src/App.tsx:592-601):
an empty blocking track yields the fixed default `(50, 50)`; otherwise the
position is interpolated from the bracketing segment.  A field read on an
undefined segment component is `none`. -/
def characterPositionOf (char : Character) (currentTime : ℚ) : Option CharacterPosition :=
  let blockingData := char.blocking
  if blockingData.length = 0 then
    some { char with x := 50, y := 50 }
  else
    let seg := findSegment BlockingKeyframe.time blockingData currentTime
    match seg.start, seg.stop with
    | some s, some e =>
        some { char with
               x := interpolate s.x e.x s.time e.time currentTime,
               y := interpolate s.y e.y s.time e.time currentTime }
    | _, _ => none

/-- Embeds `characterPositions` (src/App.tsx:592-601), the whole map. -/
def characterPositions (chars : List Character) (currentTime : ℚ) :
    List (Option CharacterPosition) :=
  chars.map (fun c => characterPositionOf c currentTime)

/-- The default keyframe used when the camera movement array is empty
(src/App.tsx:608-611). -/
def staticCameraKeyframe : CameraKeyframe :=
  { time := 0, complexity := 0, label := "Static", x := 50, y := 50 }

/-- The camera derivation (src/App.tsx:605-616): when the movement array is
non-empty the bracketing segment is found with `findSegment`, otherwise
both segment ends default to the static centered keyframe; `x`, `y` and
`complexity` are then interpolated. -/
def currentCameraPosition (movement : List CameraKeyframe) (currentTime : ℚ) :
    Option (ℚ × ℚ × ℚ) :=
  let seg : Option (CameraKeyframe × CameraKeyframe) :=
    if 0 < movement.length then
      match findSegment CameraKeyframe.time movement currentTime with
      | ⟨some a, some b⟩ => some (a, b)
      | _ => none
    else some (staticCameraKeyframe, staticCameraKeyframe)
  seg.map (fun p =>
    (interpolate p.1.x p.2.x p.1.time p.2.time currentTime,
     interpolate p.1.y p.2.y p.1.time p.2.time currentTime,
     interpolate p.1.complexity p.2.complexity p.1.time p.2.time currentTime))

/-!
EditFeedbackCoordinator (src/components/Scene3DView.tsx:182-208).  The
setTimeout/clearTimeout state is embedded as explicit state passing: the
state holds the single pending timer (`feedbackRequestTimer`, tagged with
the captured `(updatedAnalysis, changedItem)` closure arguments and the
rational instant at which it is due to fire) plus the list of feedback
requests issued so far.  Time is the event timestamp in milliseconds.
The tag type is a parameter `α`; in the source it is the pair of the scene
snapshot and the changed item.
-/

/-- Debounce window of `triggerFeedback` (src/components/Scene3DView.tsx:202):
`setTimeout(..., 500)`. -/
def debounceWindow : ℚ := 500

/-- Coordinator state: the pending timer (due instant and captured tag), if
any, and the feedback requests issued so far, oldest first. -/
structure CoordState (α : Type) where
  pending : Option (ℚ × α)
  fired : List α
deriving DecidableEq, Repr

/-- The initial, quiescent coordinator: no pending timer, nothing issued. -/
def initCoord {α : Type} : CoordState α := ⟨none, []⟩

/-- Event-loop delivery: a pending timer whose due instant has been reached
fires, issuing its captured request exactly once and clearing the handle. -/
def deliverDue {α : Type} (s : CoordState α) (now : ℚ) : CoordState α :=
  match s.pending with
  | some (dueAt, tag) => if dueAt ≤ now then ⟨none, s.fired ++ [tag]⟩ else s
  | none => s

/-- Embeds `triggerFeedback` (src/components/Scene3DView.tsx:182-203): clear any
pending timer (`clearTimeout`) and start a fresh 500 ms timer capturing the
current snapshot/item tag (`setTimeout`). -/
def triggerFeedback {α : Type} (s : CoordState α) (now : ℚ) (tag : α) : CoordState α :=
  ⟨some (now + debounceWindow, tag), s.fired⟩

/-- One edit event `(now, tag)` as seen by the coordinator
(`handleItemMoved`, src/components/Scene3DView.tsx:205-208): any timer that
was already due has been delivered by the event loop, then the edit
re-arms the debounce timer with the new tag. -/
def stepEdit {α : Type} (s : CoordState α) (e : ℚ × α) : CoordState α :=
  triggerFeedback (deliverDue s e.1) e.1 e.2

/-- Run a timestamped edit burst from the quiescent state. -/
def runEdits {α : Type} (edits : List (ℚ × α)) : CoordState α :=
  edits.foldl stepEdit initCoord

/-- All requests the coordinator ever issues for the trace: those already
fired plus the one still pending once time runs past its due instant. -/
def flushCoord {α : Type} (s : CoordState α) : List α :=
  s.fired ++ (match s.pending with | some (_, tag) => [tag] | none => [])

/-!
PoseBlender (src/components/PerspectiveView.tsx).  `activeAnimations`
entries are created on a label change (lines 242-264) and sampled every
render frame (lines 180-208) via `easeInOutCubic` and `lerp` (lines 71-72).
Decimal literals of the source are written as rationals (`0.8 = 4/5`,
`0.5 = 1/2`, `0.2 = 1/5`).
-/

/-- Embeds `lerp` (src/components/PerspectiveView.tsx:71). -/
def lerp (a b t : ℚ) : ℚ := a + (b - a) * t

/-- Embeds `easeInOutCubic` (src/components/PerspectiveView.tsx:72). -/
def easeInOutCubic (t : ℚ) : ℚ :=
  if t < 1/2 then 4 * t * t * t else 1 - (-2 * t + 2)^3 / 2

/-- One `activeAnimations` entry (src/components/PerspectiveView.tsx:243-257). -/
structure AnimState where
  label : String
  startTime : ℚ
  duration : ℚ
  startRotX : ℚ
  startRotY : ℚ
  startRotZ : ℚ
  targetRotX : ℚ
  targetRotY : ℚ
  targetRotZ : ℚ
  startPosX : ℚ
  targetPosX : ℚ
  startPosZ : ℚ
  targetPosZ : ℚ
deriving DecidableEq, Repr

/-- Creation of a new animation state on a label change
(src/components/PerspectiveView.tsx:242-264): `startTime` is the current
wall-clock time, `duration` is the fixed smoothing window `0.8`, the start
values capture the channel's current rendered values, and the target
rotations come from the label lookup (`subtle_head_nod`, `shake_head_no`,
`look_down`, default `0`). -/
def mkAnimState (animationLabel : String) (now : ℚ)
    (headRot : ℚ × ℚ × ℚ) (meshPos : ℚ × ℚ) (targetPos : ℚ × ℚ) : AnimState :=
  let base : AnimState :=
    ⟨animationLabel, now, 4/5, headRot.1, headRot.2.1, headRot.2.2, 0, 0, 0,
     meshPos.1, targetPos.1, meshPos.2, targetPos.2⟩
  if animationLabel = "subtle_head_nod" then { base with targetRotX := 1/5 }
  else if animationLabel = "shake_head_no" then { base with targetRotY := 1/2 }
  else if animationLabel = "look_down" then { base with targetRotX := 1/2 }
  else base

/-- The progress computation of the render loop
(src/components/PerspectiveView.tsx:193):
`Math.min(1.0, (elapsedTime - startTime) / duration)`. -/
def animProgress (s : AnimState) (elapsedTime : ℚ) : ℚ :=
  min 1 ((elapsedTime - s.startTime) / s.duration)

/-- The render transforms written by one `animate` frame
(src/components/PerspectiveView.tsx:193-203). -/
structure RenderPose where
  rotX : ℚ
  rotY : ℚ
  rotZ : ℚ
  posX : ℚ
  posZ : ℚ
deriving DecidableEq, Repr

/-- One evaluation of the `animate` frame for an actor with an active
animation state (src/components/PerspectiveView.tsx:192-204): eased
progress applied by `lerp` to every blended channel. -/
def animateFrame (s : AnimState) (elapsedTime : ℚ) : RenderPose :=
  let progress := animProgress s elapsedTime
  let easedProgress := easeInOutCubic progress
  ⟨lerp s.startRotX s.targetRotX easedProgress,
   lerp s.startRotY s.targetRotY easedProgress,
   lerp s.startRotZ s.targetRotZ easedProgress,
   lerp s.startPosX s.targetPosX easedProgress,
   lerp s.startPosZ s.targetPosZ easedProgress⟩

/-!
SceneGraphStore edits (src/components/PerspectiveView.tsx:129-153).  The
drag-end handler deep-copies the authoritative `SceneAnalysis`, updates the
first actor whose `name` matches the moved item, and hands the copy on.
The source contains no `console.warn`/`console.error` call on this path,
so the console trace of the operation is empty on every input.
-/

/-- Embeds `Vector3` (src/types.ts:6-10). -/
structure Vector3 where
  x : ℚ
  y : ℚ
  z : ℚ
deriving DecidableEq, Repr

/-- Embeds `ActorAnalysis` (src/types.ts:59-64). -/
structure ActorAnalysis where
  name : String
  position : Vector3
  emotion : String
  interaction : Option String
deriving DecidableEq, Repr

/-- Embeds `CameraAnalysis` (src/types.ts:66-68). -/
structure CameraAnalysis where
  position : Vector3
deriving DecidableEq, Repr

/-- Embeds `LightAnalysis` (src/types.ts:70-74). -/
structure LightAnalysis where
  type : String
  position : Vector3
  intensity : ℚ
deriving DecidableEq, Repr

/-- Embeds `PropAnalysis` (src/types.ts:76-79). -/
structure PropAnalysis where
  name : String
  position : Vector3
deriving DecidableEq, Repr

/-- Embeds `SceneAnalysis` (src/types.ts:81-88). -/
structure SceneAnalysis where
  actors : List ActorAnalysis
  camera : CameraAnalysis
  lights : List LightAnalysis
  props : List PropAnalysis
  environmentDescription : String
  overallMood : String
deriving DecidableEq, Repr

/-- Embeds `findAndupdate` (src/components/PerspectiveView.tsx:142-149):
`collection.find(i => i.name === itemData.name)` takes the FIRST match;
only `position.x` and `position.y` are written (`position.z` is reassigned
to itself); a miss changes nothing. -/
def findAndupdate (collection : List ActorAnalysis) (itemName : String)
    (newX newY : ℚ) : List ActorAnalysis :=
  match collection with
  | [] => []
  | i :: rest =>
      if i.name = itemName then
        { i with position := ⟨newX, newY, i.position.z⟩ } :: rest
      else
        i :: findAndupdate rest itemName newX newY

/-- The actor branch of the drag-end handler
(src/components/PerspectiveView.tsx:129-153): deep-copy the analysis,
apply `findAndupdate` to its `actors`, leave every other field as copied.
The second component is the console trace of the handler, which logs
nothing on any path. -/
def dragEndUpdate (analysis : SceneAnalysis) (movedName : String)
    (newX newY : ℚ) : SceneAnalysis × List String :=
  ({ analysis with actors := findAndupdate analysis.actors movedName newX newY }, [])

/-- Applying `interpolate` to two equal values gives that value, whatever the times. -/
theorem interpolate_const (v a b x : ℚ) : interpolate v v a b x = v := by
  unfold interpolate
  split_ifs <;> ring

/-- In a time-sorted list, the sampled time is monotone in the index. -/
theorem sorted_get_le {T : Type} (time : T → ℚ) {l : List T}
    (hs : List.Pairwise (fun p q => time p ≤ time q) l)
    (i j : Fin l.length) (hij : (i : ℕ) ≤ (j : ℕ)) : time (l.get i) ≤ time (l.get j) := by
  rcases eq_or_lt_of_le hij with h | h
  · have hij2 : i = j := Fin.ext h
    subst hij2
    exact le_refl _
  · exact List.pairwise_iff_get.mp hs i j h

/-- If every element's time is at most `t`, the pair-scan finds nothing
(its `t < data[i+1].time` conjunct always fails). -/
theorem findSegLoop_eq_none_of_le {T : Type} (time : T → ℚ) (t : ℚ) :
    ∀ l : List T, (∀ x ∈ l, time x ≤ t) → findSegLoop time t l = none := by
  intro l
  induction l with
  | nil => intro _; rfl
  | cons a l ih =>
    intro hall
    cases l with
    | nil => rfl
    | cons b rest =>
      rw [findSegLoop, if_neg]
      · exact ih (fun x hx => hall x (List.mem_cons_of_mem a hx))
      · intro hc
        exact absurd hc.2 (not_lt.mpr (hall b (by simp)))

/-- If `t` is strictly before every element's time, the pair-scan finds
nothing (its `currentTime >= data[i].time` conjunct always fails). -/
theorem findSegLoop_eq_none_of_lt {T : Type} (time : T → ℚ) (t : ℚ) :
    ∀ l : List T, (∀ x ∈ l, t < time x) → findSegLoop time t l = none := by
  intro l
  induction l with
  | nil => intro _; rfl
  | cons a l ih =>
    intro hall
    cases l with
    | nil => rfl
    | cons b rest =>
      rw [findSegLoop, if_neg]
      · exact ih (fun x hx => hall x (List.mem_cons_of_mem a hx))
      · intro hc
        exact absurd hc.1 (not_le.mpr (hall a (by simp)))

/-- In a sorted list, the pair-scan returns the bracketing adjacent pair. -/
theorem findSegLoop_eq_some_of_bracket {T : Type} (time : T → ℚ) (t : ℚ) :
    ∀ (l : List T), List.Pairwise (fun p q => time p ≤ time q) l →
      ∀ (i : ℕ) (h : i + 1 < l.length),
        time (l.get ⟨i, by omega⟩) ≤ t → t < time (l.get ⟨i + 1, h⟩) →
        findSegLoop time t l = some (l.get ⟨i, by omega⟩, l.get ⟨i + 1, h⟩) := by
  intro l
  induction l with
  | nil => intro _ i h; simp at h
  | cons a l ih =>
    intro hs i h hle hlt
    cases l with
    | nil => simp at h
    | cons b rest =>
      match i with
      | 0 =>
        have hcond : time a ≤ t ∧ t < time b := ⟨hle, hlt⟩
        rw [findSegLoop, if_pos hcond]
        rfl
      | k + 1 =>
        have hble : time b ≤ t := by
          have h1 : time ((a :: b :: rest).get ⟨1, by simp⟩) ≤
              time ((a :: b :: rest).get ⟨k + 1, by omega⟩) :=
            sorted_get_le time hs ⟨1, by simp⟩ ⟨k + 1, by omega⟩
              (by show 1 ≤ k + 1; omega)
          exact le_trans h1 hle
        rw [findSegLoop, if_neg]
        · exact ih (List.pairwise_cons.mp hs).2 k (by simpa using h) hle hlt
        · intro hc
          exact absurd hc.2 (not_lt.mpr hble)

/-- In a sorted non-empty list, every element's time is at most the last's. -/
theorem sorted_le_getLast {T : Type} (time : T → ℚ) {l : List T}
    (hs : List.Pairwise (fun p q => time p ≤ time q) l)
    (h : l ≠ []) (x : T) (hx : x ∈ l) : time x ≤ time (l.getLast h) := by
  obtain ⟨i, rfl⟩ := List.mem_iff_get.mp hx
  rw [List.getLast_eq_get]
  exact sorted_get_le time hs i ⟨l.length - 1, by have := i.isLt; omega⟩
    (by show (i : ℕ) ≤ l.length - 1; have := i.isLt; omega)

/-- In a sorted non-empty list, the head's time is at most every element's. -/
theorem sorted_head_le_all {T : Type} (time : T → ℚ) {l : List T}
    (hs : List.Pairwise (fun p q => time p ≤ time q) l)
    (h : l ≠ []) (x : T) (hx : x ∈ l) : time (l.head h) ≤ time x := by
  obtain ⟨i, rfl⟩ := List.mem_iff_get.mp hx
  have hhead : l.head h = l.get ⟨0, by have := List.length_pos.mpr h; omega⟩ := by
    cases l with
    | nil => exact absurd rfl h
    | cons a rest => rfl
  rw [hhead]
  exact sorted_get_le time hs _ i (by show 0 ≤ (i : ℕ); exact Nat.zero_le _)

/-- On `[t1, t2]` with `t1 < t2`, `interpolate` agrees with the exact linear
blend (the two clamping guards coincide with the blend at the endpoints). -/
theorem interpolate_eq_lerp {v1 v2 t1 t2 x : ℚ} (h12 : t1 < t2)
    (hx1 : t1 ≤ x) (hx2 : x ≤ t2) :
    interpolate v1 v2 t1 t2 x = v1 + (v2 - v1) * ((x - t1) / (t2 - t1)) := by
  have hne : t2 - t1 ≠ 0 := sub_ne_zero.mpr (ne_of_gt (by linarith))
  unfold interpolate
  split_ifs with h1 h2 h3
  · have hx : x = t1 := le_antisymm h1 hx1
    subst hx
    simp
  · have hx : x = t2 := le_antisymm hx2 h2
    subst hx
    rw [div_self hne]
    ring
  · exact absurd h3 (ne_of_lt h12)
  · rfl

/-- Claim C2 (counterexample): the spec says `interpolate(v1, v2, t, t, x) == v1`
for all `x`, but at `x = 6 > t = 5` the `currentTime >= time2` guard fires
first and the code returns `v2 = 2`, not `v1 = 1`. -/
theorem interpolate_degenerate_counterexample :
    interpolate 1 2 5 5 6 = 2 ∧ (2 : ℚ) ≠ 1 := by decide

/-- Claim C2 (amended): on a degenerate segment `t1 == t2 == t`,
`interpolate(v1, v2, t, t, x)` returns `v1` when `x <= t` and `v2` when
`x > t`; the dedicated `time1 === time2` guard is unreachable because the
two clamping guards precede it. -/
theorem interpolate_degenerate_amended (v1 v2 t x : ℚ) :
    (x ≤ t → interpolate v1 v2 t t x = v1) ∧ (t < x → interpolate v1 v2 t t x = v2) := by
  constructor
  · intro h
    simp [interpolate, h]
  · intro h
    have h1 : ¬ x ≤ t := not_le.mpr h
    simp [interpolate, h1, le_of_lt h]

/-- Witness for the amended C2 at concrete inputs. -/
theorem interpolate_degenerate_amended_witness :
    interpolate 1 2 5 5 4 = 1 ∧ interpolate 1 2 5 5 6 = 2 :=
  ⟨(interpolate_degenerate_amended 1 2 5 4).1 (by norm_num),
   (interpolate_degenerate_amended 1 2 5 6).2 (by norm_num)⟩

/-- Claim C9: for fixed endpoints and `t1 < t2`, `interpolate` is monotone
non-decreasing in the query time on `[t1, t2]` when `v1 <= v2`, and monotone
non-increasing when `v1 > v2`. -/
theorem interpolate_monotone (v1 v2 t1 t2 x1 x2 : ℚ) (h12 : t1 < t2)
    (ha : t1 ≤ x1) (hb : x1 ≤ x2) (hc : x2 ≤ t2) :
    (v1 ≤ v2 → interpolate v1 v2 t1 t2 x1 ≤ interpolate v1 v2 t1 t2 x2) ∧
    (v2 < v1 → interpolate v1 v2 t1 t2 x2 ≤ interpolate v1 v2 t1 t2 x1) := by
  have key : (x1 - t1) / (t2 - t1) ≤ (x2 - t1) / (t2 - t1) :=
    (div_le_div_right (sub_pos.mpr h12)).mpr (by linarith)
  rw [interpolate_eq_lerp h12 ha (le_trans hb hc),
    interpolate_eq_lerp h12 (le_trans ha hb) hc]
  constructor
  · intro hv
    have hmul := mul_le_mul_of_nonneg_left key (sub_nonneg.mpr hv)
    linarith
  · intro hv
    have hmul := mul_le_mul_of_nonpos_left key (by linarith : v2 - v1 ≤ 0)
    linarith

/-- Witness for C9 at concrete inputs (rising and falling segments). -/
theorem interpolate_monotone_witness :
    interpolate 0 10 0 10 2 ≤ interpolate 0 10 0 10 7 ∧
    interpolate 10 0 0 10 7 ≤ interpolate 10 0 0 10 2 :=
  ⟨(interpolate_monotone 0 10 0 10 2 7 (by norm_num) (by norm_num) (by norm_num)
      (by norm_num)).1 (by norm_num),
   (interpolate_monotone 10 0 0 10 2 7 (by norm_num) (by norm_num) (by norm_num)
      (by norm_num)).2 (by norm_num)⟩

/-- Claim C10: on the empty keyframe sequence `findSegment` does not throw:
it reads `data[length - 1]` (absent, i.e. `undefined`) and returns a record
with both components undefined, so the `TimelineGraph` caller's subsequent
field reads (`start.intensity`, `start.time`, ...) fail. -/
theorem findSegment_empty_undefined (t : ℚ) :
    findSegment TimelineDataPoint.time ([] : List TimelineDataPoint) t = ⟨none, none⟩ ∧
    currentIntensity [] t = none := by
  exact ⟨rfl, rfl⟩

/-- Claim C1 (counterexample): the spec says `t <= data[0].time` yields
`{start: data[0], end: data[0]}`.  On the sorted two-keyframe sequence
`[{time 0}, {time 10}]` the code instead returns the LAST keyframe for
`t = -5 < data[0].time` (the loop never matches, so the fall-through
returns `(last, last)`), and the pair `(data[0], data[1])` for
`t = 0 = data[0].time`. -/
theorem findSegment_before_first_counterexample :
    findSegment TKf.time [⟨0, 0⟩, ⟨10, 1⟩] (-5) = ⟨some ⟨10, 1⟩, some ⟨10, 1⟩⟩ ∧
    findSegment TKf.time [⟨0, 0⟩, ⟨10, 1⟩] (-5) ≠ ⟨some ⟨0, 0⟩, some ⟨0, 0⟩⟩ ∧
    findSegment TKf.time [⟨0, 0⟩, ⟨10, 1⟩] 0 = ⟨some ⟨0, 0⟩, some ⟨10, 1⟩⟩ := by
  refine ⟨by decide, by decide, by decide⟩

/-- Claim C1 (amended): for a sorted non-empty keyframe sequence,
(a) with exactly one keyframe `findSegment` returns `(data[0], data[0])`
for every `t`; (b) for `t` strictly before the first keyframe's time it
returns `(last, last)`; (c) for `t` equal to the first keyframe's time with
a strictly later second keyframe it returns `(data[0], data[1])`. -/
theorem findSegment_boundary_amended {T : Type} (time : T → ℚ) (data : List T) (t : ℚ)
    (hsorted : List.Pairwise (fun p q => time p ≤ time q) data) (hne : data ≠ []) :
    (data.length = 1 →
        findSegment time data t = ⟨some (data.head hne), some (data.head hne)⟩) ∧
    (t < time (data.head hne) →
        findSegment time data t = ⟨some (data.getLast hne), some (data.getLast hne)⟩) ∧
    (∀ h2 : 1 < data.length, t = time (data.head hne) →
        time (data.head hne) < time (data.get ⟨1, h2⟩) →
        findSegment time data t = ⟨some (data.head hne), some (data.get ⟨1, h2⟩)⟩) := by
  refine ⟨?_, ?_, ?_⟩
  · intro hlen
    match data, hlen with
    | [a], _ => rfl
  · intro ht
    have hloop : findSegLoop time t data = none :=
      findSegLoop_eq_none_of_lt time t data
        (fun x hx => lt_of_lt_of_le ht (sorted_head_le_all time hsorted hne x hx))
    rw [findSegment, hloop, List.getLast?_eq_getLast data hne]
  · intro h2 ht hlt
    have hzero : data.head hne = data.get ⟨0, by omega⟩ := by
      cases data with
      | nil => exact absurd rfl hne
      | cons a rest => rfl
    have hloop := findSegLoop_eq_some_of_bracket time t data hsorted 0 (by omega)
      (by rw [← hzero]; exact le_of_eq ht.symm) (by rw [ht]; exact hlt)
    rw [findSegment, hloop, hzero]

/-- Witness for the amended C1 at concrete inputs: the singleton case, the
`t` strictly-before-first case and the `t = first time` case. -/
theorem findSegment_boundary_amended_witness :
    findSegment TKf.time [⟨3, 7⟩] 1 = ⟨some ⟨3, 7⟩, some ⟨3, 7⟩⟩ ∧
    findSegment TKf.time [⟨0, 0⟩, ⟨10, 1⟩] (-5) = ⟨some ⟨10, 1⟩, some ⟨10, 1⟩⟩ ∧
    findSegment TKf.time [⟨0, 0⟩, ⟨10, 1⟩] 0 = ⟨some ⟨0, 0⟩, some ⟨10, 1⟩⟩ := by
  refine ⟨?_, ?_, ?_⟩
  · exact (findSegment_boundary_amended TKf.time [⟨3, 7⟩] 1 (by decide) (by decide)).1 rfl
  · exact (findSegment_boundary_amended TKf.time [⟨0, 0⟩, ⟨10, 1⟩] (-5) (by decide)
      (by decide)).2.1 (by decide)
  · exact (findSegment_boundary_amended TKf.time [⟨0, 0⟩, ⟨10, 1⟩] 0 (by decide)
      (by decide)).2.2 (by decide) (by decide) (by decide)

/-- Claim C3: for a sorted sequence of at least two keyframes and `t`
strictly after the first keyframe's time, if some adjacent pair brackets
`t` (`data[i].time <= t < data[i+1].time`) then `findSegment` returns that
pair, and for `t` at or beyond the last keyframe's time it returns
`(last, last)` — the boundary value is held, not extrapolated. -/
theorem findSegment_bracketing {T : Type} (time : T → ℚ) (data : List T) (t : ℚ)
    (hsorted : List.Pairwise (fun p q => time p ≤ time q) data)
    (hlen : 2 ≤ data.length)
    (ht : time (data.head (by rintro rfl; simp at hlen)) < t) :
    (∀ (i : ℕ) (h : i + 1 < data.length),
        time (data.get ⟨i, by omega⟩) ≤ t → t < time (data.get ⟨i + 1, h⟩) →
        findSegment time data t =
          ⟨some (data.get ⟨i, by omega⟩), some (data.get ⟨i + 1, h⟩)⟩) ∧
    (time (data.getLast (by rintro rfl; simp at hlen)) ≤ t →
        findSegment time data t =
          ⟨some (data.getLast (by rintro rfl; simp at hlen)),
           some (data.getLast (by rintro rfl; simp at hlen))⟩) := by
  have hne : data ≠ [] := by rintro rfl; simp at hlen
  constructor
  · intro i h hle hlt
    have hloop := findSegLoop_eq_some_of_bracket time t data hsorted i h hle hlt
    rw [findSegment, hloop]
  · intro hlast
    have hloop : findSegLoop time t data = none :=
      findSegLoop_eq_none_of_le time t data
        (fun x hx => le_trans (sorted_le_getLast time hsorted hne x hx) hlast)
    rw [findSegment, hloop, List.getLast?_eq_getLast data hne]

/-- Witness for C3 at concrete inputs: an interior bracketing pair and a
query beyond the last keyframe. -/
theorem findSegment_bracketing_witness :
    findSegment TKf.time [⟨0, 0⟩, ⟨10, 1⟩, ⟨20, 2⟩] 15 = ⟨some ⟨10, 1⟩, some ⟨20, 2⟩⟩ ∧
    findSegment TKf.time [⟨0, 0⟩, ⟨10, 1⟩, ⟨20, 2⟩] 25 = ⟨some ⟨20, 2⟩, some ⟨20, 2⟩⟩ := by
  constructor
  · exact (findSegment_bracketing TKf.time [⟨0, 0⟩, ⟨10, 1⟩, ⟨20, 2⟩] 15 (by decide)
      (by decide) (by decide)).1 1 (by decide) (by decide) (by decide)
  · exact (findSegment_bracketing TKf.time [⟨0, 0⟩, ⟨10, 1⟩, ⟨20, 2⟩] 25 (by decide)
      (by decide) (by decide)).2 (by decide)

/-- Claim C8 (counterexample): the spec says both curve modes degrade
gracefully without error for fewer than 2 keyframes.  With zero keyframes
the per-sample computation reads fields of the absent keyframe
(`findSegment` returns undefined components) and fails (`none`) at every
sample instead of holding a value. -/
theorem curve_empty_input_fails :
    currentIntensity [] 0 = none ∧
    emotionIntensities [] 10 2 = [none, none, none] ∧
    complexityIntensities [] 10 2 = [none, none, none] := by
  refine ⟨rfl, rfl, rfl⟩

/-- Claim C8 (amended): with exactly one keyframe both curve-derivation
modes hold the single keyframe's intensity at every sample (no
interpolation between distinct keyframes, a flat sampled stream); with zero
keyframes the sample computation fails on the absent keyframe's fields
rather than degrading gracefully. -/
theorem curve_single_keyframe_flat (k : TimelineDataPoint) (duration : ℚ)
    (steps : ℕ) (t : ℚ) :
    currentIntensity [k] t = some k.intensity ∧
    emotionIntensities [k] duration steps = List.replicate (steps + 1) (some k.intensity) ∧
    complexityIntensities [k] duration steps = List.replicate (steps + 1) (some k.intensity) := by
  have hone : ∀ u : ℚ, currentIntensity [k] u = some k.intensity := by
    intro u
    have hseg : findSegment TimelineDataPoint.time [k] u = ⟨some k, some k⟩ := rfl
    simp [currentIntensity, hseg, interpolate_const]
  have hlen : (sampleTimes duration steps).length = steps + 1 := by
    rw [sampleTimes, List.length_map, List.length_range]
  refine ⟨hone t, ?_, ?_⟩ <;>
  · rw [← hlen]
    first
    | rw [emotionIntensities]
    | rw [complexityIntensities]
    rw [List.map_congr_left (fun x _ => hone x)]
    exact List.map_const' _ _

/-- Claim C4: a character whose blocking (position-keyframe) track is empty
derives the fixed default position `(50, 50)` for every query time instead
of failing, and an empty camera-movement track yields a static centered
camera `(50, 50)` with zero complexity. -/
theorem derive_empty_tracks_default (char : Character) (t : ℚ)
    (hb : char.blocking = []) :
    characterPositionOf char t = some { char with x := 50, y := 50 } ∧
    currentCameraPosition [] t = some (50, 50, 0) := by
  constructor
  · rw [characterPositionOf]
    simp [hb]
  · rw [currentCameraPosition]
    simp [staticCameraKeyframe, interpolate_const]

/-- Witness for C4 at a concrete character with an empty blocking track. -/
theorem derive_empty_tracks_default_witness :
    characterPositionOf ⟨"c1", "Ava", "red", "blue", [], []⟩ 3 =
      some ⟨⟨"c1", "Ava", "red", "blue", [], []⟩, 50, 50⟩ ∧
    currentCameraPosition [] 3 = some (50, 50, 0) :=
  derive_empty_tracks_default ⟨"c1", "Ava", "red", "blue", [], []⟩ 3 rfl

/-- Within a burst (edits in arrival order, each strictly less than the
debounce window after the previous one), the pending timer is never due
when the next edit arrives, so each edit only replaces it: the fold keeps
the fired list untouched and ends pending on the last edit's tag. -/
theorem runEdits_burst {α : Type} :
    ∀ (rest : List (ℚ × α)) (tprev : ℚ) (ptag : α) (fl : List α),
      List.Chain (fun a b => a.1 ≤ b.1 ∧ b.1 - a.1 < debounceWindow) (tprev, ptag) rest →
      rest.foldl stepEdit ⟨some (tprev + debounceWindow, ptag), fl⟩ =
        ⟨some ((((tprev, ptag) :: rest).getLast (by simp)).1 + debounceWindow,
               (((tprev, ptag) :: rest).getLast (by simp)).2), fl⟩ := by
  intro rest
  induction rest with
  | nil =>
    intro tprev ptag fl _
    rfl
  | cons e rest ih =>
    obtain ⟨t, a⟩ := e
    intro tprev ptag fl hchain
    obtain ⟨⟨hle, hgap⟩, hchain2⟩ := List.chain_cons.mp hchain
    have hstep : stepEdit ⟨some (tprev + debounceWindow, ptag), fl⟩ (t, a) =
        ⟨some (t + debounceWindow, a), fl⟩ := by
      have hnot : ¬ tprev + debounceWindow ≤ t := by
        rw [debounceWindow]
        rw [debounceWindow] at hgap
        linarith
      simp [stepEdit, deliverDue, triggerFeedback, hnot]
    have hlast : (((tprev, ptag) :: (t, a) :: rest)).getLast (by simp) =
        (((t, a) :: rest)).getLast (by simp) := List.getLast_cons (by simp)
    rw [List.foldl_cons, hstep, ih t a fl hchain2, hlast]

/-- Claim C5: for every burst of one or more edits, consecutive ones less
than the debounce window (500 ms) apart, the coordinator cancels the
pending timer on each edit and issues exactly one feedback request for the
whole burst, tagged with the most recently edited entity and the scene
snapshot captured at that edit (the tag component of the last edit). -/
theorem debounce_burst_single_request {α : Type} (edits : List (ℚ × α)) (hne : edits ≠ [])
    (hburst : List.Chain' (fun a b => a.1 ≤ b.1 ∧ b.1 - a.1 < debounceWindow) edits) :
    flushCoord (runEdits edits) = [(edits.getLast hne).2] := by
  match edits, hne with
  | (t, a) :: rest, _ =>
    have hchain : List.Chain
        (fun a b => a.1 ≤ b.1 ∧ b.1 - a.1 < debounceWindow) (t, a) rest := hburst
    have h1 : stepEdit initCoord (t, a) = ⟨some (t + debounceWindow, a), []⟩ := rfl
    rw [runEdits, List.foldl_cons, h1, runEdits_burst rest t a [] hchain]
    simp [flushCoord]

/-- Witness for C5: two edits 300 ms apart produce exactly the one request
tagged with the second edit's entity and snapshot. -/
theorem debounce_burst_single_request_witness :
    flushCoord (runEdits [((0 : ℚ), ("actorA", "snapshot1")),
        ((300 : ℚ), ("actorB", "snapshot2"))]) = [("actorB", "snapshot2")] :=
  debounce_burst_single_request
    [((0 : ℚ), ("actorA", "snapshot1")), ((300 : ℚ), ("actorB", "snapshot2"))]
    (by simp)
    (by
      refine List.chain'_cons.mpr ⟨⟨by norm_num, by norm_num [debounceWindow]⟩, ?_⟩
      exact List.chain'_singleton _)

/-- Every `mkAnimState` result starts at the trigger instant with the fixed
0.8 s smoothing window, whatever the label lookup selects. -/
theorem mkAnimState_fields (animationLabel : String) (now : ℚ)
    (headRot : ℚ × ℚ × ℚ) (meshPos targetPos : ℚ × ℚ) :
    (mkAnimState animationLabel now headRot meshPos targetPos).startTime = now ∧
    (mkAnimState animationLabel now headRot meshPos targetPos).duration = 4/5 := by
  simp only [mkAnimState]
  split_ifs <;> exact ⟨rfl, rfl⟩

/-- For any animation state with positive duration, at and after
`startTime + duration` the progress is exactly `1` and the frame renders
exactly the target values. -/
theorem animateFrame_terminal (s : AnimState) (hD : 0 < s.duration)
    (u : ℚ) (hu : s.startTime + s.duration ≤ u) :
    animProgress s u = 1 ∧
    animateFrame s u =
      ⟨s.targetRotX, s.targetRotY, s.targetRotZ, s.targetPosX, s.targetPosZ⟩ := by
  have hp : animProgress s u = 1 := by
    rw [animProgress]
    have h1 : (1 : ℚ) ≤ (u - s.startTime) / s.duration :=
      (one_le_div hD).mpr (by linarith)
    exact min_eq_left h1
  have he : easeInOutCubic 1 = 1 := by norm_num [easeInOutCubic]
  have hl : ∀ a b : ℚ, lerp a b 1 = b := by
    intro a b
    rw [lerp]
    ring
  refine ⟨hp, ?_⟩
  rw [animateFrame]
  rw [hp, he, hl, hl, hl, hl, hl]

/-- Claim C6: after a pose-blending transition triggered by a label change
at time `T` (duration `D = 0.8`), the progress at `T + D` is exactly `1`
and the blended channels equal their target values exactly; at every later
frame the channels still render the targets, so per-frame re-evaluation is
idempotent until the next label change replaces the state. -/
theorem poseBlend_terminal_holds_target (animationLabel : String) (T : ℚ)
    (headRot : ℚ × ℚ × ℚ) (meshPos targetPos : ℚ × ℚ) (u : ℚ) (s : AnimState)
    (hs : s = mkAnimState animationLabel T headRot meshPos targetPos)
    (hu : T + s.duration ≤ u) :
    animProgress s (T + s.duration) = 1 ∧
    animateFrame s (T + s.duration) =
      ⟨s.targetRotX, s.targetRotY, s.targetRotZ, s.targetPosX, s.targetPosZ⟩ ∧
    animateFrame s u =
      ⟨s.targetRotX, s.targetRotY, s.targetRotZ, s.targetPosX, s.targetPosZ⟩ := by
  obtain ⟨hst, hd⟩ := mkAnimState_fields animationLabel T headRot meshPos targetPos
  rw [← hs] at hst hd
  have hD : 0 < s.duration := by
    rw [hd]
    norm_num
  have hend := animateFrame_terminal s hD (T + s.duration) (le_of_eq (by rw [hst]))
  have hlater := animateFrame_terminal s hD u (by rw [hst]; exact hu)
  exact ⟨hend.1, hend.2, hlater.2⟩

/-- Witness for C6 at a concrete trigger: label `look_down` at `T = 2`,
checked at the end instant and at the later frame `u = 10`. -/
theorem poseBlend_terminal_holds_target_witness :
    animProgress (mkAnimState "look_down" 2 (0, 0, 0) (1, 1) (3, 4))
        (2 + (mkAnimState "look_down" 2 (0, 0, 0) (1, 1) (3, 4)).duration) = 1 ∧
    animateFrame (mkAnimState "look_down" 2 (0, 0, 0) (1, 1) (3, 4))
        (2 + (mkAnimState "look_down" 2 (0, 0, 0) (1, 1) (3, 4)).duration) =
      ⟨1/2, 0, 0, 3, 4⟩ ∧
    animateFrame (mkAnimState "look_down" 2 (0, 0, 0) (1, 1) (3, 4)) 10 =
      ⟨1/2, 0, 0, 3, 4⟩ := by
  exact poseBlend_terminal_holds_target "look_down" 2 (0, 0, 0) (1, 1) (3, 4) 10
    (mkAnimState "look_down" 2 (0, 0, 0) (1, 1) (3, 4)) rfl
    (by rw [(mkAnimState_fields "look_down" 2 (0, 0, 0) (1, 1) (3, 4)).2]; norm_num)

/-- A miss leaves the collection untouched (`collection.find` fails and
nothing is written). -/
theorem findAndupdate_no_match (collection : List ActorAnalysis) (n : String)
    (nx ny : ℚ) (h : ∀ a ∈ collection, a.name ≠ n) :
    findAndupdate collection n nx ny = collection := by
  induction collection with
  | nil => rfl
  | cons a rest ih =>
    rw [findAndupdate, if_neg (h a (by simp))]
    rw [ih (fun x hx => h x (List.mem_cons_of_mem a hx))]

/-- A first match at index `i` rewrites exactly that entry, and only its
`position.x`/`position.y` fields. -/
theorem findAndupdate_first_match :
    ∀ (collection : List ActorAnalysis) (n : String) (nx ny : ℚ) (i : ℕ)
      (hi : i < collection.length),
      (collection.get ⟨i, hi⟩).name = n →
      (∀ j (hj : j < i), (collection.get ⟨j, by omega⟩).name ≠ n) →
      findAndupdate collection n nx ny =
        collection.set i { collection.get ⟨i, hi⟩ with
          position := ⟨nx, ny, (collection.get ⟨i, hi⟩).position.z⟩ } := by
  intro collection
  induction collection with
  | nil =>
    intro n nx ny i hi
    simp at hi
  | cons a rest ih =>
    intro n nx ny i hi hname hprev
    match i with
    | 0 =>
      have hname2 : a.name = n := hname
      rw [findAndupdate, if_pos hname2]
      rfl
    | k + 1 =>
      have hne2 : a.name ≠ n := hprev 0 (by omega)
      rw [findAndupdate, if_neg hne2]
      rw [ih n nx ny k (by simpa using hi) hname (fun j hj => hprev (j + 1) (by omega))]
      rfl

/-- Claim C7 (counterexample): the spec says an edit whose identity is not
found reports a warning.  On a scene whose only actor is `alice`, the edit
for `ghost` leaves the state unchanged AND logs nothing — the console
trace (second component) is empty, so no warning is reported. -/
theorem applyEdit_unknown_identity_silent :
    dragEndUpdate ⟨[⟨"alice", ⟨1, 2, 3⟩, "calm", none⟩], ⟨⟨0, 0, 0⟩⟩, [], [],
        "room", "tense"⟩ "ghost" 7 8 =
      (⟨[⟨"alice", ⟨1, 2, 3⟩, "calm", none⟩], ⟨⟨0, 0, 0⟩⟩, [], [], "room", "tense"⟩, []) := by
  decide

/-- Claim C7 (amended): an interactive position edit keyed by identity
mutates only the first matching actor's `position.x`/`position.y` (its
other fields, `position.z` included, and every other entity and scene field
are unchanged); an unknown identity is a silent no-op — the scene state is
returned unchanged and nothing (in particular no warning) is logged. -/
theorem applyEdit_frame_effect (analysis : SceneAnalysis) (n : String) (nx ny : ℚ) :
    ((dragEndUpdate analysis n nx ny).1.camera = analysis.camera ∧
     (dragEndUpdate analysis n nx ny).1.lights = analysis.lights ∧
     (dragEndUpdate analysis n nx ny).1.props = analysis.props ∧
     (dragEndUpdate analysis n nx ny).1.environmentDescription =
       analysis.environmentDescription ∧
     (dragEndUpdate analysis n nx ny).1.overallMood = analysis.overallMood) ∧
    (dragEndUpdate analysis n nx ny).2 = [] ∧
    ((∀ a ∈ analysis.actors, a.name ≠ n) →
        dragEndUpdate analysis n nx ny = (analysis, [])) ∧
    (∀ (i : ℕ) (hi : i < analysis.actors.length),
        (analysis.actors.get ⟨i, hi⟩).name = n →
        (∀ j (hj : j < i), (analysis.actors.get ⟨j, by omega⟩).name ≠ n) →
        (dragEndUpdate analysis n nx ny).1.actors =
          analysis.actors.set i { analysis.actors.get ⟨i, hi⟩ with
            position := ⟨nx, ny, (analysis.actors.get ⟨i, hi⟩).position.z⟩ }) := by
  refine ⟨⟨rfl, rfl, rfl, rfl, rfl⟩, rfl, ?_, ?_⟩
  · intro h
    rw [dragEndUpdate, findAndupdate_no_match analysis.actors n nx ny h]
  · intro i hi hname hprev
    have hupd := findAndupdate_first_match analysis.actors n nx ny i hi hname hprev
    simp only [dragEndUpdate]
    exact hupd

/-- Witness for the amended C7: with two actors both named `bob`, editing
`bob` updates only the first one's planar position and keeps its depth and
every other field. -/
theorem applyEdit_frame_effect_witness :
    (dragEndUpdate ⟨[⟨"bob", ⟨0, 0, 5⟩, "sad", none⟩, ⟨"bob", ⟨9, 9, 9⟩, "mad", none⟩],
        ⟨⟨0, 0, 0⟩⟩, [], [], "stage", "moody"⟩ "bob" 7 8).1.actors =
      [⟨"bob", ⟨7, 8, 5⟩, "sad", none⟩, ⟨"bob", ⟨9, 9, 9⟩, "mad", none⟩] := by
  exact (applyEdit_frame_effect
    ⟨[⟨"bob", ⟨0, 0, 5⟩, "sad", none⟩, ⟨"bob", ⟨9, 9, 9⟩, "mad", none⟩],
      ⟨⟨0, 0, 0⟩⟩, [], [], "stage", "moody"⟩ "bob" 7 8).2.2.2 0 (by decide) (by decide)
    (fun j hj => absurd hj (Nat.not_lt_zero j))

end VisionWeaver
